import Mathlib

/-!
Shallow embedding of the board-view reconciliation engine of
`src/ui/views/Board/BoardView.svelte`: the record-mutation handler
`handleRecordUpdate` (config-record reconciliation, config persistence and
order-sync-field propagation) and the column-reorder handler
`handleSortColumns`, together with the configuration data model from
`src/ui/views/Board/types` as described by the persisted configuration shape.
-/

/-- A value stored in a record field: the handler only distinguishes numbers
(order-sync positions), strings (grouping values) and absence. -/
inductive Value where
  | num (n : Nat)
  | str (s : String)
deriving DecidableEq, Repr

/-- A data record: a stable id plus a field-name-to-value mapping, modelling
`DataRecord` of `src/lib/dataframe/dataframe`. -/
structure DataRecord where
  id : String
  values : List (String × Value)
deriving DecidableEq, Repr

/-- Look up a field value on a record (`record.values[name]`). -/
def getValue (r : DataRecord) (f : String) : Option Value :=
  (r.values.find? (fun p => p.1 == f)).map (fun p => p.2)

/-- JS-object upsert: replace the value of an existing key in place, or append
a new key at the end, exactly as a spread update `\x7b...m, [k]: v\x7d` behaves. -/
def upsertAssoc {α : Type} (m : List (String × α)) (k : String) (v : α) :
    List (String × α) :=
  if m.any (fun p => p.1 == k) then
    m.map (fun p => if p.1 == k then (k, v) else p)
  else m ++ [(k, v)]

/-- `updateRecordValues(record, \x7b [f]: v \x7d)` of
`src/lib/datasources/helpers`: merge one field value into the record. -/
def updateRecordValues (r : DataRecord) (f : String) (v : Value) : DataRecord :=
  ⟨r.id, upsertAssoc r.values f v⟩

/-- Per-column persisted configuration: `\x7b weight?: number, records?: string[] \x7d`. -/
structure ColumnConfig where
  weight : Option Nat
  records : Option (List String)
deriving DecidableEq, Repr

/-- The empty column configuration object `\x7b\x7d`. -/
def emptyColumnConfig : ColumnConfig := ⟨none, none⟩

/-- The persisted `BoardConfig`:
`\x7b orderSyncField?: string, columns?: \x7b [key]: ColumnConfig \x7d \x7d`.
The columns object is modelled as an association list in JS key-insertion
order. -/
structure BoardConfig where
  orderSyncField : Option String
  columns : Option (List (String × ColumnConfig))
deriving DecidableEq, Repr

/-- `getRecord(id)` supplied by the hosting view: resolve an id against the
live frame, `record | absent`. -/
def getRecord (frame : List DataRecord) (id : String) : Option DataRecord :=
  frame.find? (fun r => r.id == id)

/-- Modelled from the spec: the mutation trigger union type is declared in
`src/ui/views/Board/components/Board/types`, which is not among the provided
sources; the spec fixes its values as `addToColumn`, `removeFromColumn` and
`reorderWithinColumn` (add-to-column, remove-from-column, update-in-place). -/
inductive Trigger where
  | addToColumn
  | removeFromColumn
  | reorderWithinColumn
deriving DecidableEq, Repr

/-- The optional-chain `config?.columns?.[column]`. -/
def lookupColumn (config : Option BoardConfig) (column : String) :
    Option ColumnConfig :=
  (config.bind (fun c => c.columns)).bind
    (fun m => (m.find? (fun p => p.1 == column)).map (fun p => p.2))

/-- The optional-chain `config?.columns?.[column]?.records`. -/
def columnRecordIds (config : Option BoardConfig) (column : String) :
    Option (List String) :=
  (lookupColumn config column).bind (fun c => c.records)

/-- Lines 79-81: `config?.columns?.[column]?.records?.map(getRecord).filter(notUndefined)`
resolving each persisted id to a live record and dropping unresolvable ids. -/
def resolveConfigRecords (frame : List DataRecord) (config : Option BoardConfig)
    (column : String) : Option (List DataRecord) :=
  (columnRecordIds config column).map (fun ids => ids.filterMap (getRecord frame))

/-- JS array indexing `l[i]` for a possibly negative index. -/
def jsGet {α : Type} (l : List α) (i : Int) : Option α :=
  if i < 0 then none else l.get? i.toNat

/-- `configRecords.findIndex((r) => r.id === id)` as an optional index: the
position of the first record carrying the given id. -/
def idIndexOf (l : List DataRecord) (id : String) : Option Nat :=
  match l with
  | [] => none
  | r :: rest =>
    if r.id == id then some 0 else (idIndexOf rest id).map (fun n => n + 1)

/-- JS `findIndex`, returning `-1` when no element matches. -/
def jsFindIndex (l : List DataRecord) (id : String) : Int :=
  match idIndexOf l id with
  | some n => (n : Int)
  | none => -1

/-- `splice(pos, 0, r)`: insert `r` at position `pos`. -/
def spliceInsert (l : List DataRecord) (pos : Nat) (r : DataRecord) :
    List DataRecord :=
  l.take pos ++ r :: l.drop pos

/-- The previous visible neighbor `records[index - 1]` of the mutated record in
the UI-supplied list (line 107). -/
def uiPrevNeighbor (uiRecords : List DataRecord) (record : DataRecord) :
    Option DataRecord :=
  jsGet uiRecords (jsFindIndex uiRecords record.id - 1)

/-- The next visible neighbor `records[index + 1]` of the mutated record in the
UI-supplied list (line 108). -/
def uiNextNeighbor (uiRecords : List DataRecord) (record : DataRecord) :
    Option DataRecord :=
  jsGet uiRecords (jsFindIndex uiRecords record.id + 1)

/-- Lines 106-122: the insertion position used on `addToColumn` when a filter
but no sort is active; anchor after the previous neighbor's resolved position,
else at the next neighbor's resolved position, else at the end. -/
def filterInsertPosition (configRecords uiRecords : List DataRecord)
    (record : DataRecord) : Nat :=
  let before := uiPrevNeighbor uiRecords record
  let after := uiNextNeighbor uiRecords record
  let position : Int :=
    match before with
    | some b =>
      match idIndexOf configRecords b.id with
      | some i => (i : Int) + 1
      | none => -1
    | none => -1
  let position : Int :=
    if position == -1 then
      match after with
      | some a => jsFindIndex configRecords a.id
      | none => -1
    else position
  let position : Int :=
    if position == -1 then (configRecords.length : Int) else position
  position.toNat

/-- Lines 84-126: reconcile the resolved persisted records of the target
column against the mutation: strip the mutated record on removal or when no
sort is active, then re-insert it according to the trigger and the sort/filter
flags. -/
def reconcileConfigRecords (hasSort hasFilter : Bool) (trigger : Trigger)
    (record : DataRecord) (uiRecords : List DataRecord)
    (configRecords : List DataRecord) : List DataRecord :=
  let configRecordIndex := idIndexOf configRecords record.id
  let isRecordInConfig := configRecordIndex.isSome
  let configRecords :=
    if isRecordInConfig ∧ (trigger = Trigger.removeFromColumn ∨ hasSort = false)
    then
      match configRecordIndex with
      | some i => configRecords.eraseIdx i
      | none => configRecords
    else configRecords
  if trigger = Trigger.addToColumn then
    if hasSort then
      if isRecordInConfig then configRecords else configRecords ++ [record]
    else if hasFilter then
      spliceInsert configRecords
        (filterInsertPosition configRecords uiRecords record) record
    else configRecords
  else configRecords

/-- Lines 128-137: the reconciled records followed by any UI-supplied records
missing from them (out-of-sync drift appended at the end). -/
def mergedRecords (record : DataRecord) (uiRecords reconciled : List DataRecord) :
    List DataRecord :=
  reconciled ++ uiRecords.filter (fun r1 =>
    r1.id != record.id && !(reconciled.any (fun r2 => r2.id == r1.id)))

/-- Lines 69-73: on `addToColumn` with a grouping field, stamp the grouping
field of the mutated record with the target column key. -/
def stampGroupField (groupByField : Option String) (trigger : Trigger)
    (column : String) (record : DataRecord) : DataRecord :=
  match groupByField with
  | some g =>
    if trigger = Trigger.addToColumn ∧ g ≠ "" then
      updateRecordValues record g (Value.str column)
    else record
  | none => record

/-- Whether the sort/filter branch of lines 78-140 ran and loaded config
records (`isConfigRecordsLoaded`). -/
def configRecordsLoaded (frame : List DataRecord) (hasSort hasFilter : Bool)
    (config : Option BoardConfig) (column : String) : Bool :=
  (hasSort || hasFilter) && (resolveConfigRecords frame config column).isSome

/-- The value of the `records` variable after lines 75-140: the column's final
order, either the merged reconciled records or the UI-supplied list verbatim. -/
def finalColumnRecords (frame : List DataRecord) (hasSort hasFilter : Bool)
    (config : Option BoardConfig) (record : DataRecord) (column : String)
    (uiRecords : List DataRecord) (trigger : Trigger) : List DataRecord :=
  if hasSort || hasFilter then
    match resolveConfigRecords frame config column with
    | some configRecords =>
      mergedRecords record uiRecords
        (reconcileConfigRecords hasSort hasFilter trigger record uiRecords
          configRecords)
    | none => uiRecords
  else uiRecords

/-- Lines 142-151: the new `BoardConfig` saved by `saveConfig`, spreading the
old config and replacing the target column's `records` list. -/
def updatedConfig (config : Option BoardConfig) (column : String)
    (ids : List String) : BoardConfig :=
  ⟨config.bind (fun c => c.orderSyncField),
   some (upsertAssoc ((config.bind (fun c => c.columns)).getD [])
     column
     ⟨((lookupColumn config column).getD emptyColumnConfig).weight, some ids⟩)⟩

/-- Lines 156-184: the record updates pushed to `api.updateRecord`. With a
sync field and either config records loaded or no sort active, renumber the
final order, updating the mutated record unconditionally and every other
record whose stored value differs from its position; otherwise update only the
mutated record. -/
def syncUpdates (orderSyncFieldName : Option String) (hasSort : Bool)
    (isConfigRecordsLoaded : Bool) (record : DataRecord)
    (finalRecords : List DataRecord) : List DataRecord :=
  match orderSyncFieldName with
  | some f =>
    if isConfigRecordsLoaded || !hasSort then
      finalRecords.enum.filterMap (fun p =>
        if p.2.id = record.id then
          some (updateRecordValues record f (Value.num p.1))
        else if getValue p.2 f ≠ some (Value.num p.1) then
          some (updateRecordValues p.2 f (Value.num p.1))
        else none)
    else [record]
  | none => [record]

/-- The outcome of one mutation event: the config handed to `saveConfig` and
the records handed to `api.updateRecord`, in order. -/
structure MutationResult where
  newConfig : BoardConfig
  updates : List DataRecord
deriving DecidableEq, Repr

/-- Lines 65-185: the full record-mutation handler `handleRecordUpdate`,
parameterised by the resolved order-sync field name. -/
def handleRecordUpdate (frame : List DataRecord) (hasSort hasFilter : Bool)
    (groupByField orderSyncFieldName : Option String)
    (config : Option BoardConfig) (record0 : DataRecord) (column : String)
    (uiRecords : List DataRecord) (trigger : Trigger) : MutationResult :=
  let record := stampGroupField groupByField trigger column record0
  let finalRecords :=
    finalColumnRecords frame hasSort hasFilter config record column uiRecords
      trigger
  ⟨updatedConfig config column (finalRecords.map (fun r => r.id)),
   if trigger = Trigger.removeFromColumn then []
   else
     syncUpdates orderSyncFieldName hasSort
       (configRecordsLoaded frame hasSort hasFilter config column) record
       finalRecords⟩

/-- Modelled from the spec: `getFieldByName` lives in `src/ui/views/Board/board`,
which is not among the provided sources; fields are identified by name, unique
within a frame, so it resolves a name against the frame's field names. -/
def getFieldByName (fields : List String) (name : String) : Option String :=
  fields.find? (fun f => f == name)

/-- Lines 47-49: the reactive derivation of the order-sync field,
`(config?.orderSyncField && getFieldByName(fields, config.orderSyncField)) || undefined`. -/
def resolveOrderSyncField (fields : List String) (config : Option BoardConfig) :
    Option String :=
  match config.bind (fun c => c.orderSyncField) with
  | some n => if n ≠ "" then getFieldByName fields n else none
  | none => none

/-- The mutation handler with the order-sync field resolved from the config as
the component does reactively. -/
def boardMutation (fields : List String) (frame : List DataRecord)
    (hasSort hasFilter : Bool) (groupByField : Option String)
    (config : Option BoardConfig) (record0 : DataRecord) (column : String)
    (uiRecords : List DataRecord) (trigger : Trigger) : MutationResult :=
  handleRecordUpdate frame hasSort hasFilter groupByField
    (resolveOrderSyncField fields config) config record0 column uiRecords
    trigger

/-- `Object.fromEntries`: later entries win for a duplicated key, key order is
first occurrence, matching JS object construction. -/
def jsFromEntries (entries : List (String × ColumnConfig)) :
    List (String × ColumnConfig) :=
  entries.foldl (fun m e => upsertAssoc m e.1 e.2) []

/-- Lines 209-219: `handleSortColumns` rebuilds the columns map from the given
name order, keeping each named column's old entry with its weight replaced by
its index, and dropping every entry not named. -/
def handleSortColumns (config : Option BoardConfig) (names : List String) :
    BoardConfig :=
  ⟨config.bind (fun c => c.orderSyncField),
   some (jsFromEntries (names.enum.map (fun p =>
     (p.2,
      ⟨some p.1,
       ((lookupColumn config p.2).getD emptyColumnConfig).records⟩))))⟩

/-! ### Concrete sample data used by witnesses and counterexamples -/

/-- The sample order-sync field name. -/
def posField : String := "pos"

/-- The sample column key. -/
def colKey : String := "c"

/-- A record with id A and no values. -/
def recA : DataRecord := ⟨"A", []⟩

/-- A record with id B and no values. -/
def recB : DataRecord := ⟨"B", []⟩

/-- A record with id C and no values. -/
def recC : DataRecord := ⟨"C", []⟩

/-- A record with id X and no values. -/
def recX : DataRecord := ⟨"X", []⟩

/-- A record with id A whose stored sync position is 0. -/
def recApos0 : DataRecord := ⟨"A", [(posField, Value.num 0)]⟩

/-- A record with id A whose stored sync position is 1. -/
def recApos1 : DataRecord := ⟨"A", [(posField, Value.num 1)]⟩

/-- A record with id B whose stored sync position is 5. -/
def recBpos5 : DataRecord := ⟨"B", [(posField, Value.num 5)]⟩

/-- A config that only configures the sync field. -/
def cfgSyncOnly : BoardConfig := ⟨some posField, none⟩

/-! ### Helper lemmas about the association-list operations -/

theorem find?_replaceKey {α : Type} (m : List (String × α)) (k k' : String)
    (v : α) (h : k' ≠ k) :
    (m.map (fun p => if p.1 == k then (k, v) else p)).find?
        (fun p => p.1 == k')
      = m.find? (fun p => p.1 == k') := by
  induction m with
  | nil => rfl
  | cons q m ih =>
    rw [List.map_cons]
    by_cases hq : q.1 = k
    · have hhead : (if q.1 == k then (k, v) else q) = (k, v) := by simp [hq]
      rw [hhead, List.find?_cons_of_neg _ (by simp [Ne.symm h]),
        List.find?_cons_of_neg _ (by simp [hq, Ne.symm h]), ih]
    · have hhead : (if q.1 == k then (k, v) else q) = q := by simp [hq]
      rw [hhead]
      by_cases hq' : q.1 = k'
      · rw [List.find?_cons_of_pos _ (by simp [hq']),
          List.find?_cons_of_pos _ (by simp [hq'])]
      · rw [List.find?_cons_of_neg _ (by simp [hq']),
          List.find?_cons_of_neg _ (by simp [hq']), ih]

theorem find?_replaceKey_self {α : Type} (m : List (String × α)) (k : String)
    (v : α) (hany : m.any (fun p => p.1 == k) = true) :
    (m.map (fun p => if p.1 == k then (k, v) else p)).find?
        (fun p => p.1 == k)
      = some (k, v) := by
  induction m with
  | nil => simp at hany
  | cons q m ih =>
    rw [List.map_cons]
    by_cases hq : q.1 = k
    · have hhead : (if q.1 == k then (k, v) else q) = (k, v) := by simp [hq]
      rw [hhead, List.find?_cons_of_pos _ (by simp)]
    · have hhead : (if q.1 == k then (k, v) else q) = q := by simp [hq]
      rw [hhead, List.find?_cons_of_neg _ (by simp [hq])]
      apply ih
      simpa [hq] using hany

theorem find?_upsertAssoc_ne {α : Type} (m : List (String × α)) (k k' : String)
    (v : α) (h : k' ≠ k) :
    (upsertAssoc m k v).find? (fun p => p.1 == k')
      = m.find? (fun p => p.1 == k') := by
  unfold upsertAssoc
  by_cases hany : m.any (fun p => p.1 == k)
  · simp only [hany, if_true]
    exact find?_replaceKey m k k' v h
  · simp only [hany, if_false, List.find?_append]
    have h2 : ((k, v).1 == k') = false := by simp [Ne.symm h]
    cases hf : m.find? (fun p => p.1 == k') <;> simp [hf, h2]

theorem find?_upsertAssoc_self {α : Type} (m : List (String × α)) (k : String)
    (v : α) :
    (upsertAssoc m k v).find? (fun p => p.1 == k) = some (k, v) := by
  unfold upsertAssoc
  by_cases hany : m.any (fun p => p.1 == k)
  · simp only [hany, if_true]
    exact find?_replaceKey_self m k v hany
  · simp only [hany, if_false, List.find?_append]
    have hnone : m.find? (fun p => p.1 == k) = none := by
      rw [List.find?_eq_none]
      intro x hx
      rw [List.any_eq_true] at hany
      exact fun hxk => hany ⟨x, hx, hxk⟩
    simp [hnone]

theorem upsertAssoc_of_not_mem {α : Type} (m : List (String × α)) (k : String)
    (v : α) (h : ∀ p ∈ m, (p.1 == k) = false) :
    upsertAssoc m k v = m ++ [(k, v)] := by
  unfold upsertAssoc
  have hany : m.any (fun p => p.1 == k) = false := by
    rw [List.any_eq_false]
    intro x hx
    simp [h x hx]
  simp [hany]

theorem upsertAssoc_append_self {α : Type} (m : List (String × α))
    (k : String) (w v : α) (h : ∀ p ∈ m, (p.1 == k) = false) :
    upsertAssoc (m ++ [(k, w)]) k v = m ++ [(k, v)] := by
  unfold upsertAssoc
  have hany : (m ++ [(k, w)]).any (fun p => p.1 == k) = true := by
    rw [List.any_eq_true]
    exact ⟨(k, w), by simp, by simp⟩
  simp only [hany, if_true, List.map_append]
  have hm : List.map (fun p => if p.1 == k then (k, v) else p) m
      = List.map id m :=
    List.map_congr_left (fun p hp => by simp [h p hp])
  rw [hm, List.map_id]
  simp

theorem columnRecordIds_updatedConfig_self (config : Option BoardConfig)
    (column : String) (ids : List String) :
    columnRecordIds (some (updatedConfig config column ids)) column
      = some ids := by
  unfold columnRecordIds lookupColumn updatedConfig
  simp [find?_upsertAssoc_self]

theorem lookupColumn_updatedConfig_ne (config : Option BoardConfig)
    (column k : String) (ids : List String) (h : k ≠ column) :
    lookupColumn (some (updatedConfig config column ids)) k
      = lookupColumn config k := by
  unfold lookupColumn updatedConfig
  simp only [Option.some_bind]
  rw [find?_upsertAssoc_ne _ _ _ _ h]
  cases hc : config.bind (fun c => c.columns) <;> simp [hc]

theorem foldl_upsertAssoc_of_nodup {α : Type}
    (entries : List (String × α)) :
    ∀ acc : List (String × α),
      (((acc ++ entries).map (fun p => p.1)).Nodup) →
      entries.foldl (fun m e => upsertAssoc m e.1 e.2) acc = acc ++ entries := by
  induction entries with
  | nil => intro acc _; simp
  | cons e rest ih =>
    intro acc hnd
    have hmem : ∀ p ∈ acc, (p.1 == e.1) = false := by
      intro p hp
      have hsplit : ((acc.map (fun p => p.1)) ++
          (e.1 :: rest.map (fun p => p.1))).Nodup := by
        simpa using hnd
      have hdisj := (List.nodup_append.mp hsplit).2.2
      have : p.1 ≠ e.1 := by
        intro hpe
        exact hdisj (List.mem_map_of_mem _ hp) (by simp [hpe])
      simpa using this
    rw [List.foldl_cons, upsertAssoc_of_not_mem acc e.1 e.2 hmem]
    have hres := ih (acc ++ [e]) (by simpa using hnd)
    rw [hres]
    simp

theorem jsFromEntries_of_nodup (entries : List (String × ColumnConfig))
    (h : (entries.map (fun p => p.1)).Nodup) :
    jsFromEntries entries = entries := by
  unfold jsFromEntries
  simpa using foldl_upsertAssoc_of_nodup entries [] (by simpa using h)

/-! ### Claim theorems -/

/-- C10: on a column-reorder event over a duplicate-free ordered list of column
names, the new config's columns map is exactly the name list in order, each
named column keeping its persisted records list with its weight replaced by its
index, and every previously configured column absent from the name list is
removed. -/
theorem c10_sort_columns_rebuilds_map (config : Option BoardConfig)
    (names : List String) (h : names.Nodup) :
    (handleSortColumns config names).columns
      = some (names.enum.map (fun p =>
          (p.2, ⟨some p.1,
            ((lookupColumn config p.2).getD emptyColumnConfig).records⟩)))
    ∧ (((handleSortColumns config names).columns.getD []).map (fun p => p.1))
        = names
    ∧ ∀ k, k ∉ names →
        lookupColumn (some (handleSortColumns config names)) k = none := by
  have hkeys : ((names.enum.map (fun p =>
      (p.2, (⟨some p.1,
        ((lookupColumn config p.2).getD emptyColumnConfig).records⟩
          : ColumnConfig)))).map (fun p => p.1)) = names := by
    rw [List.map_map]
    have : ((fun p => p.1) ∘ (fun (p : Nat × String) =>
        (p.2, (⟨some p.1,
          ((lookupColumn config p.2).getD emptyColumnConfig).records⟩
            : ColumnConfig)))) = Prod.snd := by
      funext p
      rfl
    rw [this, List.enum_map_snd]
  have hcols : (handleSortColumns config names).columns
      = some (names.enum.map (fun p =>
          (p.2, ⟨some p.1,
            ((lookupColumn config p.2).getD emptyColumnConfig).records⟩))) := by
    unfold handleSortColumns
    rw [jsFromEntries_of_nodup _ (by rw [hkeys]; exact h)]
  refine ⟨hcols, ?_, ?_⟩
  · rw [hcols]
    simpa using hkeys
  · intro k hk
    unfold lookupColumn
    simp only [Option.some_bind]
    rw [hcols]
    have : (names.enum.map (fun p =>
        (p.2, (⟨some p.1,
          ((lookupColumn config p.2).getD emptyColumnConfig).records⟩
            : ColumnConfig)))).find? (fun p => p.1 == k) = none := by
      rw [List.find?_eq_none]
      intro x hx
      obtain ⟨q, hq, hqx⟩ := List.mem_map.mp hx
      obtain ⟨i, a⟩ := q
      have ha : a ∈ names := List.getElem?_mem (List.mk_mem_enum_iff_getElem?.mp hq)
      have : x.1 = a := by rw [← hqx]
      intro hxk
      rw [this] at hxk
      exact hk (by rwa [show a = k from by simpa using hxk] at ha)
    simp [this]

/-- C10 witness: reordering columns of an example config to the names
Doing, Todo keeps each named column's records with its weight replaced by its
index and drops the unnamed column. -/
theorem c10_sort_columns_rebuilds_map_witness :
    (((handleSortColumns
        (some ⟨none, some [("Todo", ⟨some 0, some ["a"]⟩),
                           ("Doing", ⟨some 1, some ["b"]⟩),
                           ("Done", ⟨some 2, some ["c"]⟩)]⟩)
        ["Doing", "Todo"]).columns.getD []).map (fun p => p.1))
      = ["Doing", "Todo"] :=
  (c10_sort_columns_rebuilds_map
    (some ⟨none, some [("Todo", ⟨some 0, some ["a"]⟩),
                       ("Doing", ⟨some 1, some ["b"]⟩),
                       ("Done", ⟨some 2, some ["c"]⟩)]⟩)
    ["Doing", "Todo"] (by decide)).2.1

/-- C9: on a removeFromColumn mutation no record update at all is emitted, and
the saved config differs from the old one only in the target column's entry:
the sync-field setting and every other column's entry are unchanged. -/
theorem c9_remove_from_column_updates_nothing (fields : List String)
    (frame : List DataRecord) (hasSort hasFilter : Bool)
    (groupByField : Option String) (config : Option BoardConfig)
    (record0 : DataRecord) (column : String) (uiRecords : List DataRecord) :
    (boardMutation fields frame hasSort hasFilter groupByField config record0
        column uiRecords Trigger.removeFromColumn).updates = []
    ∧ (boardMutation fields frame hasSort hasFilter groupByField config record0
        column uiRecords Trigger.removeFromColumn).newConfig.orderSyncField
        = config.bind (fun c => c.orderSyncField)
    ∧ ∀ k, k ≠ column →
        lookupColumn (some (boardMutation fields frame hasSort hasFilter
          groupByField config record0 column uiRecords
          Trigger.removeFromColumn).newConfig) k
          = lookupColumn config k := by
  refine ⟨?_, rfl, ?_⟩
  · simp [boardMutation, handleRecordUpdate]
  · intro k hk
    exact lookupColumn_updatedConfig_ne config column k _ hk

/-- C9 witness: removing a record from a column of a one-column config emits
no update and leaves another column key untouched. -/
theorem c9_remove_from_column_updates_nothing_witness :
    (boardMutation [] [] true false none
      (some ⟨none, some [("c", ⟨none, some ["r"]⟩)]⟩) ⟨"r", []⟩ "c" []
      Trigger.removeFromColumn).updates = []
    ∧ lookupColumn (some (boardMutation [] [] true false none
        (some ⟨none, some [("c", ⟨none, some ["r"]⟩)]⟩) ⟨"r", []⟩ "c" []
        Trigger.removeFromColumn).newConfig) "other"
      = lookupColumn (some ⟨none, some [("c", ⟨none, some ["r"]⟩)]⟩) "other" :=
  ⟨(c9_remove_from_column_updates_nothing [] [] true false none
      (some ⟨none, some [("c", ⟨none, some ["r"]⟩)]⟩) ⟨"r", []⟩ "c" []).1,
   (c9_remove_from_column_updates_nothing [] [] true false none
      (some ⟨none, some [("c", ⟨none, some ["r"]⟩)]⟩) ⟨"r", []⟩ "c" []).2.2
     "other" (by decide)⟩

/-- C8: an absent config, an absent columns map, and an absent entry for the
target column behave exactly as their empty-structure replacements: the whole
mutation result is unchanged, so first-run configuration never fails. -/
theorem c8_missing_config_defaults (fields : List String)
    (frame : List DataRecord) (hasSort hasFilter : Bool)
    (groupByField : Option String) (record0 : DataRecord) (column : String)
    (uiRecords : List DataRecord) (trigger : Trigger) :
    boardMutation fields frame hasSort hasFilter groupByField none record0
        column uiRecords trigger
      = boardMutation fields frame hasSort hasFilter groupByField
          (some ⟨none, some []⟩) record0 column uiRecords trigger
    ∧ boardMutation fields frame hasSort hasFilter groupByField
          (some ⟨none, none⟩) record0 column uiRecords trigger
      = boardMutation fields frame hasSort hasFilter groupByField
          (some ⟨none, some []⟩) record0 column uiRecords trigger
    ∧ ∀ (sync : Option String) (cols : List (String × ColumnConfig)),
        (∀ p ∈ cols, p.1 ≠ column) →
        boardMutation fields frame hasSort hasFilter groupByField
            (some ⟨sync, some cols⟩) record0 column uiRecords trigger
          = boardMutation fields frame hasSort hasFilter groupByField
            (some ⟨sync, some (cols ++ [(column, emptyColumnConfig)])⟩)
            record0 column uiRecords trigger := by
  refine ⟨rfl, rfl, ?_⟩
  intro sync cols hcols
  have hfind : cols.find? (fun p => p.1 == column) = none :=
    List.find?_eq_none.mpr (fun p hp => by simp [hcols p hp])
  have hfind2 : (cols ++ [(column, emptyColumnConfig)]).find?
      (fun p => p.1 == column) = some (column, emptyColumnConfig) := by
    rw [List.find?_append, hfind]
    simp
  have hlook : lookupColumn (some ⟨sync, some cols⟩) column = none := by
    unfold lookupColumn
    simp [hfind]
  have hlook2 : lookupColumn
      (some ⟨sync, some (cols ++ [(column, emptyColumnConfig)])⟩) column
      = some emptyColumnConfig := by
    unfold lookupColumn
    simp [hfind2]
  have hids : ∀ ids : List String,
      updatedConfig (some ⟨sync, some cols⟩) column ids
        = updatedConfig
            (some ⟨sync, some (cols ++ [(column, emptyColumnConfig)])⟩)
            column ids := by
    intro ids
    unfold updatedConfig
    rw [hlook, hlook2]
    simp only [Option.some_bind, Option.getD_some, Option.getD_none]
    rw [upsertAssoc_of_not_mem cols column _ (fun p hp => by simp [hcols p hp]),
      upsertAssoc_append_self cols column _ _
        (fun p hp => by simp [hcols p hp])]
  have hrids : columnRecordIds (some ⟨sync, some cols⟩) column
      = columnRecordIds
          (some ⟨sync, some (cols ++ [(column, emptyColumnConfig)])⟩) column := by
    unfold columnRecordIds
    rw [hlook, hlook2]
    rfl
  have hfinal : ∀ (r : DataRecord),
      finalColumnRecords frame hasSort hasFilter (some ⟨sync, some cols⟩) r
          column uiRecords trigger
        = finalColumnRecords frame hasSort hasFilter
            (some ⟨sync, some (cols ++ [(column, emptyColumnConfig)])⟩) r
            column uiRecords trigger := by
    intro r
    unfold finalColumnRecords resolveConfigRecords
    rw [hrids]
  have hloaded : configRecordsLoaded frame hasSort hasFilter
        (some ⟨sync, some cols⟩) column
      = configRecordsLoaded frame hasSort hasFilter
          (some ⟨sync, some (cols ++ [(column, emptyColumnConfig)])⟩) column := by
    unfold configRecordsLoaded resolveConfigRecords
    rw [hrids]
  unfold boardMutation handleRecordUpdate
  simp only [hfinal, hloaded, hids]
  rfl

/-- C8 witness: with no config at all, adding a record behaves exactly as with
the empty config, and a config holding only an unrelated column behaves as if
the target column had an explicit empty entry. -/
theorem c8_missing_config_defaults_witness :
    boardMutation [] [] false false none none ⟨"r", []⟩ "c" [⟨"r", []⟩]
        Trigger.addToColumn
      = boardMutation [] [] false false none (some ⟨none, some []⟩) ⟨"r", []⟩
          "c" [⟨"r", []⟩] Trigger.addToColumn
    ∧ boardMutation [] [] false false none
          (some ⟨none, some [("x", ⟨some 1, some ["q"]⟩)]⟩) ⟨"r", []⟩ "c"
          [⟨"r", []⟩] Trigger.addToColumn
      = boardMutation [] [] false false none
          (some ⟨none, some [("x", ⟨some 1, some ["q"]⟩),
                             ("c", emptyColumnConfig)]⟩) ⟨"r", []⟩ "c"
          [⟨"r", []⟩] Trigger.addToColumn :=
  ⟨(c8_missing_config_defaults [] [] false false none ⟨"r", []⟩ "c" [⟨"r", []⟩]
      Trigger.addToColumn).1,
   (c8_missing_config_defaults [] [] false false none ⟨"r", []⟩ "c" [⟨"r", []⟩]
      Trigger.addToColumn).2.2 none [("x", ⟨some 1, some ["q"]⟩)]
      (by decide)⟩

theorem idIndexOf_eq_none_iff (l : List DataRecord) (id : String) :
    idIndexOf l id = none ↔ ∀ r ∈ l, r.id ≠ id := by
  induction l with
  | nil => simp [idIndexOf]
  | cons r rest ih =>
    by_cases h : r.id = id
    · simp [idIndexOf, h]
    · simp [idIndexOf, h, ih]

/-- C5: on addToColumn with sort active the reconciler appends the mutated
record to the resolved persisted records when its id is absent, and leaves the
list entirely unchanged when its id is already present, so the relative order
of the previously persisted records is never altered. -/
theorem c5_sort_active_append_or_keep (hasFilter : Bool) (record : DataRecord)
    (uiRecords configRecords : List DataRecord) :
    (record.id ∉ configRecords.map (fun r => r.id) →
      reconcileConfigRecords true hasFilter Trigger.addToColumn record
          uiRecords configRecords
        = configRecords ++ [record])
    ∧ (record.id ∈ configRecords.map (fun r => r.id) →
      reconcileConfigRecords true hasFilter Trigger.addToColumn record
          uiRecords configRecords
        = configRecords) := by
  constructor
  · intro h
    have hnone : idIndexOf configRecords record.id = none := by
      rw [idIndexOf_eq_none_iff]
      intro r hr hre
      exact h (List.mem_map.mpr ⟨r, hr, hre⟩)
    unfold reconcileConfigRecords
    simp [hnone]
  · intro h
    have hsome : (idIndexOf configRecords record.id).isSome = true := by
      cases hc : idIndexOf configRecords record.id
      · obtain ⟨r, hr, hre⟩ := List.mem_map.mp h
        exact absurd hre ((idIndexOf_eq_none_iff _ _).mp hc r hr)
      · rfl
    unfold reconcileConfigRecords
    simp [hsome]

/-- C5 witness: with sort active, adding record C to a column persisted as
A, B appends C at the end without reordering A and B, and re-adding A leaves
the list untouched. -/
theorem c5_sort_active_append_or_keep_witness :
    reconcileConfigRecords true false Trigger.addToColumn recC [] [recA, recB]
      = [recA, recB, recC]
    ∧ reconcileConfigRecords true false Trigger.addToColumn recA [] [recA, recB]
      = [recA, recB] :=
  ⟨(c5_sort_active_append_or_keep false recC [] [recA, recB]).1 (by decide),
   (c5_sort_active_append_or_keep false recA [] [recA, recB]).2 (by decide)⟩

/-- C4 counterexample: with a sync field configured, no sort and no filter
active (so no reconciled config data is used) and an addToColumn trigger, the
handler emits two updates, not one: the UI list is renumbered wholesale, so
the claimed single-mutated-record cheap path does not run in this situation. -/
theorem c4_cheap_path_counterexample :
    (boardMutation [posField] [] false false none (some cfgSyncOnly) recApos1
        colKey [recBpos5, recApos1] Trigger.addToColumn).updates.length
      = 2 := by
  decide

/-- C4 (amended): with a sync field configured, a trigger other than
removeFromColumn, no reconciled config data used and sort ACTIVE, exactly one
record update is emitted and it is for the (group-stamped) mutated record
only. -/
theorem c4_cheap_path_amended (fields : List String)
    (frame : List DataRecord) (hasFilter : Bool)
    (groupByField : Option String) (config : Option BoardConfig)
    (record0 : DataRecord) (column : String) (uiRecords : List DataRecord)
    (trigger : Trigger) (f : String)
    (hsync : resolveOrderSyncField fields config = some f)
    (ht : trigger ≠ Trigger.removeFromColumn)
    (hnl : configRecordsLoaded frame true hasFilter config column = false) :
    (boardMutation fields frame true hasFilter groupByField config record0
        column uiRecords trigger).updates
      = [stampGroupField groupByField trigger column record0] := by
  unfold boardMutation handleRecordUpdate
  simp only [hsync, hnl, if_neg ht]
  unfold syncUpdates
  simp

/-- C4 witness: adding a record while sort is active with no persisted list
for the column updates exactly the mutated record. -/
theorem c4_cheap_path_amended_witness :
    (boardMutation [posField] [] true false none (some cfgSyncOnly) recApos1
        colKey [] Trigger.addToColumn).updates = [recApos1] :=
  c4_cheap_path_amended [posField] [] false none (some cfgSyncOnly) recApos1
    colKey [] Trigger.addToColumn posField (by decide) (by decide) (by decide)

/-- C1: on addToColumn with filter active and sort inactive, for a mutated
record not already persisted the reconciler inserts it into the resolved
persisted records at the neighbor-anchored position: immediately after the
previous UI neighbor's resolved index when that resolves, else at the next UI
neighbor's resolved index, else at the end. -/
theorem c1_filter_neighbor_insertion (record : DataRecord)
    (uiRecords configRecords : List DataRecord)
    (hnot : record.id ∉ configRecords.map (fun r => r.id)) :
    reconcileConfigRecords false true Trigger.addToColumn record uiRecords
        configRecords
      = spliceInsert configRecords
          (filterInsertPosition configRecords uiRecords record) record
    ∧ (∀ b i, uiPrevNeighbor uiRecords record = some b →
        idIndexOf configRecords b.id = some i →
        filterInsertPosition configRecords uiRecords record = i + 1)
    ∧ ((uiPrevNeighbor uiRecords record).bind
          (fun b => idIndexOf configRecords b.id) = none →
        ∀ a j, uiNextNeighbor uiRecords record = some a →
          idIndexOf configRecords a.id = some j →
          filterInsertPosition configRecords uiRecords record = j)
    ∧ ((uiPrevNeighbor uiRecords record).bind
          (fun b => idIndexOf configRecords b.id) = none →
        (uiNextNeighbor uiRecords record).bind
          (fun a => idIndexOf configRecords a.id) = none →
        filterInsertPosition configRecords uiRecords record
          = configRecords.length) := by
  have hnone : idIndexOf configRecords record.id = none := by
    rw [idIndexOf_eq_none_iff]
    intro r hr hre
    exact hnot (List.mem_map.mpr ⟨r, hr, hre⟩)
  refine ⟨?_, ?_, ?_, ?_⟩
  · unfold reconcileConfigRecords
    simp [hnone]
  · intro b i hb hi
    have h1 : (((i : Int) + 1) == (-1 : Int)) = false :=
      beq_eq_false_iff_ne.mpr (by omega)
    unfold filterInsertPosition
    simp only [hb, hi, h1, Bool.false_eq_true, if_false]
    omega
  · intro hpb a j ha hj
    have h1 : (((j : Nat) : Int) == (-1 : Int)) = false :=
      beq_eq_false_iff_ne.mpr (by omega)
    unfold filterInsertPosition
    cases hb : uiPrevNeighbor uiRecords record with
    | none =>
      simp only [hb, ha, jsFindIndex, hj, h1, Bool.false_eq_true, if_false]
      simp
    | some b =>
      rw [hb] at hpb
      simp only [Option.some_bind] at hpb
      simp only [hb, hpb, ha, jsFindIndex, hj, h1, Bool.false_eq_true,
        if_false]
      simp
  · intro hpb hpa
    unfold filterInsertPosition
    have hstep : ∀ x : Option DataRecord, x = uiNextNeighbor uiRecords record →
        (((match x with
            | some a => jsFindIndex configRecords a.id
            | none => (-1 : Int)) : Int)) = -1 := by
      intro x hx
      cases x with
      | none => rfl
      | some a =>
        rw [← hx] at hpa
        simp only [Option.some_bind] at hpa
        simp [jsFindIndex, hpa]
    cases hb : uiPrevNeighbor uiRecords record with
    | none =>
      have hm := hstep _ rfl
      simp only [hb]
      simp [hm]
    | some b =>
      rw [hb] at hpb
      simp only [Option.some_bind] at hpb
      have hm := hstep _ rfl
      simp only [hb, hpb]
      simp [hm]

/-- C1 witness: the spec scenario — column persisted as A, C resolved, UI
order A, B, C, record B added with filter active: B's previous neighbor A
resolves at index 0, so B is inserted at index 1, yielding A, B, C. -/
theorem c1_filter_neighbor_insertion_witness :
    reconcileConfigRecords false true Trigger.addToColumn recB
        [recA, recB, recC] [recA, recC]
      = [recA, recB, recC]
    ∧ filterInsertPosition [recA, recC] [recA, recB, recC] recB = 1 :=
  ⟨((c1_filter_neighbor_insertion recB [recA, recB, recC] [recA, recC]
      (by decide)).1).trans (by decide),
   (c1_filter_neighbor_insertion recB [recA, recB, recC] [recA, recC]
      (by decide)).2.1 recA 0 (by decide) (by decide)⟩

theorem mem_spliceInsert {l : List DataRecord} {pos : Nat}
    {rec r : DataRecord} (h : r ∈ spliceInsert l pos rec) : r ∈ l ∨ r = rec := by
  unfold spliceInsert at h
  rcases List.mem_append.mp h with h1 | h2
  · exact Or.inl ((List.take_sublist _ _).subset h1)
  · rcases List.mem_cons.mp h2 with h3 | h4
    · exact Or.inr h3
    · exact Or.inl ((List.drop_sublist _ _).subset h4)

theorem mem_of_mem_eraseIdxDR {l : List DataRecord} {i : Nat} {r : DataRecord}
    (h : r ∈ l.eraseIdx i) : r ∈ l :=
  (List.eraseIdx_sublist l i).subset h

theorem mem_reconcileConfigRecords {hasSort hasFilter : Bool}
    {trigger : Trigger} {record : DataRecord}
    {uiRecords configRecords : List DataRecord} {r : DataRecord}
    (h : r ∈ reconcileConfigRecords hasSort hasFilter trigger record uiRecords
      configRecords) :
    r ∈ configRecords ∨ r = record := by
  unfold reconcileConfigRecords at h
  cases trigger <;> cases hasSort <;> cases hasFilter <;>
    cases hidx : idIndexOf configRecords record.id <;>
      simp only [hidx] at h <;> (try simp at h) <;>
      first
      | exact Or.inl h
      | exact h
      | exact Or.inl (mem_of_mem_eraseIdxDR h)
      | (rcases h with h1 | h1
         · exact Or.inl h1
         · exact Or.inr h1)
      | (rcases mem_spliceInsert h with h1 | h1
         · exact Or.inl h1
         · exact Or.inr h1)
      | (rcases mem_spliceInsert h with h1 | h1
         · exact Or.inl (mem_of_mem_eraseIdxDR h1)
         · exact Or.inr h1)
      | (rcases h with h1 | h1
         · exact Or.inl (mem_of_mem_eraseIdxDR h1)
         · exact Or.inr h1)

theorem getRecord_id {frame : List DataRecord} {id : String} {r : DataRecord}
    (h : getRecord frame id = some r) : r.id = id := by
  have := List.find?_some h
  simpa using this

theorem getRecord_of_mem_resolve {frame : List DataRecord} {l : List String}
    {r : DataRecord} (h : r ∈ l.filterMap (getRecord frame)) :
    getRecord frame r.id = some r := by
  rcases List.mem_filterMap.mp h with ⟨i, hi, hres⟩
  rw [getRecord_id hres]
  exact hres

theorem stampGroupField_id (groupByField : Option String) (trigger : Trigger)
    (column : String) (record : DataRecord) :
    (stampGroupField groupByField trigger column record).id = record.id := by
  unfold stampGroupField
  cases groupByField with
  | none => rfl
  | some g =>
    show (if trigger = Trigger.addToColumn ∧ g ≠ "" then
        updateRecordValues record g (Value.str column) else record).id
      = record.id
    by_cases h : trigger = Trigger.addToColumn ∧ g ≠ ""
    · rw [if_pos h]
      rfl
    · rw [if_neg h]

/-- C7 counterexample: with sort active and the column persisted as the single
id X which does not resolve in the live frame, adding the record with id X
itself re-persists the unresolvable id X, so an unresolvable persisted id is
not always absent from the reconciler's output. -/
theorem c7_drift_counterexample :
    getRecord [] recX.id = none
    ∧ columnRecordIds
        (some ⟨none, some [(colKey, ⟨none, some [recX.id]⟩)]⟩) colKey
      = some [recX.id]
    ∧ columnRecordIds (some (boardMutation [] [] true false none
        (some ⟨none, some [(colKey, ⟨none, some [recX.id]⟩)]⟩) recX colKey []
        Trigger.addToColumn).newConfig) colKey
      = some [recX.id] := by
  refine ⟨rfl, rfl, ?_⟩
  decide

/-- C7 (amended): with sort or filter active, every id of the column's
persisted record list that getRecord cannot resolve in the live frame is
absent from the persisted list the reconciler produces, provided it is neither
the mutated record's id nor the id of any UI-supplied record. -/
theorem c7_drift_amended (fields : List String) (frame : List DataRecord)
    (hasSort hasFilter : Bool) (groupByField : Option String)
    (config : Option BoardConfig) (record0 : DataRecord) (column : String)
    (uiRecords : List DataRecord) (trigger : Trigger) (x : String)
    (l : List String)
    (hflags : (hasSort || hasFilter) = true)
    (hl : columnRecordIds config column = some l)
    (hx : x ∈ l)
    (hres : getRecord frame x = none)
    (hner : x ≠ record0.id)
    (hui : ∀ r ∈ uiRecords, r.id ≠ x) :
    ∀ out, columnRecordIds (some (boardMutation fields frame hasSort hasFilter
        groupByField config record0 column uiRecords trigger).newConfig) column
        = some out →
      x ∉ out := by
  intro out hout hmem
  have hnew : (boardMutation fields frame hasSort hasFilter groupByField
      config record0 column uiRecords trigger).newConfig
      = updatedConfig config column
          ((finalColumnRecords frame hasSort hasFilter config
            (stampGroupField groupByField trigger column record0) column
            uiRecords trigger).map (fun r => r.id)) := rfl
  rw [hnew, columnRecordIds_updatedConfig_self] at hout
  rw [← Option.some_inj.mp hout] at hmem
  have hresolve : resolveConfigRecords frame config column
      = some (l.filterMap (getRecord frame)) := by
    unfold resolveConfigRecords
    rw [hl]
    rfl
  have hfin : finalColumnRecords frame hasSort hasFilter config
      (stampGroupField groupByField trigger column record0) column uiRecords
      trigger
      = mergedRecords (stampGroupField groupByField trigger column record0)
          uiRecords
          (reconcileConfigRecords hasSort hasFilter trigger
            (stampGroupField groupByField trigger column record0) uiRecords
            (l.filterMap (getRecord frame))) := by
    unfold finalColumnRecords
    rw [hflags, hresolve]
    simp
  rw [hfin] at hmem
  obtain ⟨r, hr, hrid⟩ := List.mem_map.mp hmem
  unfold mergedRecords at hr
  rcases List.mem_append.mp hr with h1 | h2
  · rcases mem_reconcileConfigRecords h1 with h3 | h3
    · have hsome := getRecord_of_mem_resolve h3
      rw [hrid] at hsome
      rw [hres] at hsome
      exact Option.noConfusion hsome
    · rw [h3, stampGroupField_id] at hrid
      exact hner hrid.symm
  · exact hui r (List.mem_of_mem_filter h2) hrid

/-- C7 amended witness: a persisted list holding the unresolvable id X plus
the live id A; adding record A with sort active drops X from the persisted
output. -/
theorem c7_drift_amended_witness :
    columnRecordIds (some (boardMutation [] [recA] true false none
        (some ⟨none, some [(colKey, ⟨none, some [recX.id, recA.id]⟩)]⟩) recA
        colKey [recA] Trigger.addToColumn).newConfig) colKey
      = some [recA.id]
    ∧ recX.id ∉ [recA.id] :=
  ⟨by decide,
   c7_drift_amended [] [recA] true false none
    (some ⟨none, some [(colKey, ⟨none, some [recX.id, recA.id]⟩)]⟩) recA
    colKey [recA] Trigger.addToColumn recX.id [recX.id, recA.id]
    (by decide) (by decide) (by decide) (by decide) (by decide) (by decide)
    [recA.id] (by decide)⟩

/-- C3 counterexample: a reorderWithinColumn event with filter active, a sync
field configured and config records loaded emits no update at all — in
particular no unconditional update for the mutated record, because the
reconciliation dropped the mutated record from the final order. -/
theorem c3_sync_propagation_counterexample :
    resolveOrderSyncField [posField]
        (some ⟨some posField, some [(colKey, ⟨none, some [recApos0.id]⟩)]⟩)
      = some posField
    ∧ configRecordsLoaded [recApos0] false true
        (some ⟨some posField, some [(colKey, ⟨none, some [recApos0.id]⟩)]⟩)
        colKey
      = true
    ∧ (boardMutation [posField] [recApos0] false true none
        (some ⟨some posField, some [(colKey, ⟨none, some [recApos0.id]⟩)]⟩)
        recApos0 colKey [recApos0] Trigger.reorderWithinColumn).updates
      = [] := by
  refine ⟨by decide, by decide, by decide⟩

/-- C3 (amended): with a sync field configured, a trigger other than
removeFromColumn, and config records loaded or no sort active, the emitted
updates are exactly: for every position of the column's final order, the
(group-stamped) mutated record updated to that position whenever the record
there carries its id — even if its stored value already matches — and every
other record there whose stored sync value differs from its position, updated
to that position; no other updates are emitted. If the mutated record does not
occur in the final order it receives no update. -/
theorem c3_sync_propagation_amended (fields : List String)
    (frame : List DataRecord) (hasSort hasFilter : Bool)
    (groupByField : Option String) (config : Option BoardConfig)
    (record0 : DataRecord) (column : String) (uiRecords : List DataRecord)
    (trigger : Trigger) (f : String)
    (hsync : resolveOrderSyncField fields config = some f)
    (ht : trigger ≠ Trigger.removeFromColumn)
    (hflag : configRecordsLoaded frame hasSort hasFilter config column = true
      ∨ hasSort = false) :
    ∀ u, u ∈ (boardMutation fields frame hasSort hasFilter groupByField config
        record0 column uiRecords trigger).updates
      ↔ ∃ i r, (finalColumnRecords frame hasSort hasFilter config
            (stampGroupField groupByField trigger column record0) column
            uiRecords trigger)[i]? = some r
          ∧ ((r.id = (stampGroupField groupByField trigger column record0).id
               ∧ u = updateRecordValues
                   (stampGroupField groupByField trigger column record0) f
                   (Value.num i))
             ∨ (r.id ≠ (stampGroupField groupByField trigger column record0).id
               ∧ getValue r f ≠ some (Value.num i)
               ∧ u = updateRecordValues r f (Value.num i))) := by
  intro u
  have hupd : (boardMutation fields frame hasSort hasFilter groupByField config
      record0 column uiRecords trigger).updates
      = syncUpdates (some f) hasSort
          (configRecordsLoaded frame hasSort hasFilter config column)
          (stampGroupField groupByField trigger column record0)
          (finalColumnRecords frame hasSort hasFilter config
            (stampGroupField groupByField trigger column record0) column
            uiRecords trigger) := by
    unfold boardMutation handleRecordUpdate
    simp only [hsync]
    rw [if_neg ht]
  have hcond : (configRecordsLoaded frame hasSort hasFilter config column
      || !hasSort) = true := by
    rcases hflag with h | h
    · simp [h]
    · simp [h]
  rw [hupd]
  unfold syncUpdates
  simp only [hcond, if_true]
  rw [List.mem_filterMap]
  constructor
  · rintro ⟨p, hp, hgp⟩
    obtain ⟨i, r⟩ := p
    have hget := List.mk_mem_enum_iff_getElem?.mp hp
    refine ⟨i, r, hget, ?_⟩
    by_cases hid : r.id
        = (stampGroupField groupByField trigger column record0).id
    · rw [if_pos hid] at hgp
      exact Or.inl ⟨hid, (Option.some_inj.mp hgp).symm⟩
    · rw [if_neg hid] at hgp
      by_cases hv : getValue r f ≠ some (Value.num i)
      · rw [if_pos hv] at hgp
        exact Or.inr ⟨hid, hv, (Option.some_inj.mp hgp).symm⟩
      · rw [if_neg hv] at hgp
        exact Option.noConfusion hgp
  · rintro ⟨i, r, hget, hcase⟩
    refine ⟨(i, r), List.mk_mem_enum_iff_getElem?.mpr hget, ?_⟩
    rcases hcase with ⟨hid, hu⟩ | ⟨hid, hv, hu⟩
    · rw [if_pos hid, hu]
    · rw [if_neg hid, if_pos hv, hu]

/-- C3 amended witness: with no sort or filter, record B at position 0 with a
stale stored position 5 receives an update setting its sync value to 0. -/
theorem c3_sync_propagation_amended_witness :
    updateRecordValues recBpos5 posField (Value.num 0)
      ∈ (boardMutation [posField] [] false false none (some cfgSyncOnly)
          recApos1 colKey [recBpos5, recApos1] Trigger.addToColumn).updates :=
  (c3_sync_propagation_amended [posField] [] false false none
    (some cfgSyncOnly) recApos1 colKey [recBpos5, recApos1]
    Trigger.addToColumn posField (by decide) (by decide) (Or.inr rfl)
    (updateRecordValues recBpos5 posField (Value.num 0))).mpr
    ⟨0, recBpos5, by decide, Or.inr ⟨by decide, by decide, by decide⟩⟩

theorem ids_filterMap_getRecord_sublist (frame : List DataRecord)
    (l : List String) :
    ((l.filterMap (getRecord frame)).map (fun r => r.id)).Sublist l := by
  induction l with
  | nil => simp
  | cons i rest ih =>
    cases hres : getRecord frame i with
    | none =>
      rw [List.filterMap_cons_none hres]
      exact ih.cons i
    | some r =>
      rw [List.filterMap_cons_some hres, List.map_cons, getRecord_id hres]
      exact ih.cons₂ i

theorem not_mem_ids_eraseIdx_of_idIndexOf {l : List DataRecord} {id : String}
    {i : Nat} (hnd : (l.map (fun r => r.id)).Nodup)
    (h : idIndexOf l id = some i) :
    id ∉ (l.eraseIdx i).map (fun r => r.id) := by
  induction l generalizing i with
  | nil => simp [idIndexOf] at h
  | cons r rest ih =>
    by_cases hr : r.id = id
    · have h0 : i = 0 := by
        unfold idIndexOf at h
        simp [hr] at h
        exact h.symm
      subst h0
      have hhead : r.id ∉ rest.map (fun x => x.id) :=
        (List.nodup_cons.mp (by simpa using hnd)).1
      intro hmem
      rw [show (r :: rest).eraseIdx 0 = rest from rfl] at hmem
      rw [← hr] at hmem
      exact hhead hmem
    · have hstep : ∃ j, idIndexOf rest id = some j ∧ i = j + 1 := by
        unfold idIndexOf at h
        simp only [beq_eq_false_iff_ne.mpr hr, Bool.false_eq_true, if_false,
          Option.map_eq_some'] at h
        obtain ⟨j, hj, hji⟩ := h
        exact ⟨j, hj, hji.symm⟩
      obtain ⟨j, hj, rfl⟩ := hstep
      have htail := ih (List.nodup_cons.mp (by simpa using hnd)).2 hj
      simp only [List.eraseIdx, List.map_cons, List.mem_cons]
      rintro (hcase | hcase)
      · exact hr hcase.symm
      · exact htail hcase

theorem nodup_ids_spliceInsert {l : List DataRecord} {pos : Nat}
    {rec : DataRecord} (hnd : (l.map (fun r => r.id)).Nodup)
    (hnot : rec.id ∉ l.map (fun r => r.id)) :
    ((spliceInsert l pos rec).map (fun r => r.id)).Nodup := by
  unfold spliceInsert
  rw [List.map_append, List.map_cons, List.map_take, List.map_drop]
  rw [List.nodup_middle]
  rw [List.take_append_drop]
  exact List.nodup_cons.mpr ⟨hnot, hnd⟩

theorem not_mem_ids_of_idIndexOf_none {l : List DataRecord} {id : String}
    (h : idIndexOf l id = none) : id ∉ l.map (fun r => r.id) := by
  intro hmem
  obtain ⟨r, hr, hrid⟩ := List.mem_map.mp hmem
  exact (idIndexOf_eq_none_iff _ _).mp h r hr hrid

theorem nodup_ids_append_record {configRecords : List DataRecord}
    {record : DataRecord}
    (hnd : (configRecords.map (fun r => r.id)).Nodup)
    (hnot : record.id ∉ configRecords.map (fun r => r.id)) :
    ((configRecords.map (fun r => r.id)) ++ [record.id]).Nodup := by
  rw [List.nodup_append]
  refine ⟨hnd, List.nodup_singleton _, ?_⟩
  intro a ha hb
  rw [List.mem_singleton] at hb
  subst hb
  exact hnot ha

theorem nodup_ids_reconcile (hasSort hasFilter : Bool) (trigger : Trigger)
    (record : DataRecord) (uiRecords configRecords : List DataRecord)
    (hnd : (configRecords.map (fun r => r.id)).Nodup) :
    ((reconcileConfigRecords hasSort hasFilter trigger record uiRecords
        configRecords).map (fun r => r.id)).Nodup := by
  have herase : ∀ i,
      (((configRecords.eraseIdx i).map (fun r => r.id)).Nodup) := fun i =>
    hnd.sublist ((List.eraseIdx_sublist configRecords i).map _)
  unfold reconcileConfigRecords
  cases trigger <;> cases hasSort <;> cases hasFilter <;>
    cases hidx : idIndexOf configRecords record.id <;>
      simp only [hidx, Option.isSome_none, Option.isSome_some] <;>
      (try simp only [Bool.false_eq_true, false_and, if_false]) <;>
      (try simp only [List.map_append, List.map_cons, List.map_nil]) <;>
      (try simp) <;>
      first
      | exact hnd
      | exact herase _
      | exact nodup_ids_append_record hnd (not_mem_ids_of_idIndexOf_none hidx)
      | exact nodup_ids_spliceInsert hnd (not_mem_ids_of_idIndexOf_none hidx)
      | exact nodup_ids_spliceInsert (herase _)
          (not_mem_ids_eraseIdx_of_idIndexOf hnd hidx)

theorem nodup_ids_merged (record : DataRecord)
    (uiRecords reconciled : List DataRecord)
    (h1 : (reconciled.map (fun r => r.id)).Nodup)
    (h2 : (uiRecords.map (fun r => r.id)).Nodup) :
    ((mergedRecords record uiRecords reconciled).map (fun r => r.id)).Nodup := by
  unfold mergedRecords
  rw [List.map_append, List.nodup_append]
  refine ⟨h1, ?_, ?_⟩
  · exact h2.sublist ((List.filter_sublist _).map _)
  · intro a ha hb
    obtain ⟨r1, hr1, hrid⟩ := List.mem_map.mp hb
    have hpred := List.of_mem_filter hr1
    rw [Bool.and_eq_true] at hpred
    have hnotany := hpred.2
    rw [Bool.not_eq_eq_eq_not, Bool.not_true, List.any_eq_false] at hnotany
    obtain ⟨r2, hr2, hrid2⟩ := List.mem_map.mp ha
    have heq : r2.id = r1.id := by rw [hrid2, hrid]
    have hfalse := hnotany r2 hr2
    rw [heq] at hfalse
    simp at hfalse

/-- C2 counterexample: with the column persisted as the duplicated list X, X
(both resolving in the frame) and the record with id X added under sort, the
reconciler persists X twice: the output is not duplicate-free for every
persisted config. -/
theorem c2_duplicates_counterexample :
    columnRecordIds (some (boardMutation [] [recX] true false none
        (some ⟨none, some [(colKey, ⟨none, some [recX.id, recX.id]⟩)]⟩) recX
        colKey [] Trigger.addToColumn).newConfig) colKey
      = some [recX.id, recX.id]
    ∧ ¬ ([recX.id, recX.id] : List String).Nodup := by
  exact ⟨by decide, by decide⟩

/-- C2 (amended): for every mutation event whose persisted list for the target
column (when present) has no repeated id and whose UI-supplied records have no
repeated id, the record-id list the reconciler persists for the target column
contains no repeated id — including when the mutated record's id already
appears in the persisted list under addToColumn. -/
theorem c2_no_duplicates_amended (fields : List String)
    (frame : List DataRecord) (hasSort hasFilter : Bool)
    (groupByField : Option String) (config : Option BoardConfig)
    (record0 : DataRecord) (column : String) (uiRecords : List DataRecord)
    (trigger : Trigger)
    (hcfg : ∀ l, columnRecordIds config column = some l → l.Nodup)
    (hui : (uiRecords.map (fun r => r.id)).Nodup) :
    ∀ out, columnRecordIds (some (boardMutation fields frame hasSort hasFilter
        groupByField config record0 column uiRecords trigger).newConfig) column
        = some out →
      out.Nodup := by
  intro out hout
  have hnew : (boardMutation fields frame hasSort hasFilter groupByField
      config record0 column uiRecords trigger).newConfig
      = updatedConfig config column
          ((finalColumnRecords frame hasSort hasFilter config
            (stampGroupField groupByField trigger column record0) column
            uiRecords trigger).map (fun r => r.id)) := rfl
  rw [hnew, columnRecordIds_updatedConfig_self] at hout
  rw [← Option.some_inj.mp hout]
  unfold finalColumnRecords
  by_cases hflags : (hasSort || hasFilter) = true
  · rw [if_pos hflags]
    cases hres : resolveConfigRecords frame config column with
    | none => exact hui
    | some cr =>
      obtain ⟨l, hl, hcr⟩ : ∃ l, columnRecordIds config column = some l
          ∧ cr = l.filterMap (getRecord frame) := by
        unfold resolveConfigRecords at hres
        cases hh : columnRecordIds config column with
        | none => rw [hh] at hres; exact Option.noConfusion hres
        | some l =>
          rw [hh] at hres
          exact ⟨l, rfl, (Option.some_inj.mp hres).symm⟩
      have hcrnd : (cr.map (fun r => r.id)).Nodup := by
        rw [hcr]
        exact (hcfg l hl).sublist (ids_filterMap_getRecord_sublist frame l)
      exact nodup_ids_merged _ _ _
        (nodup_ids_reconcile hasSort hasFilter trigger _ uiRecords cr hcrnd)
        hui
  · rw [if_neg hflags]
    exact hui

/-- C2 amended witness: adding record B to a column persisted as A, C with
filter active and duplicate-free inputs yields the duplicate-free persisted
list A, B, C. -/
theorem c2_no_duplicates_amended_witness :
    columnRecordIds (some (boardMutation [] [recA, recB, recC] false true none
        (some ⟨none, some [(colKey, ⟨none, some [recA.id, recC.id]⟩)]⟩) recB
        colKey [recA, recB, recC] Trigger.addToColumn).newConfig) colKey
      = some [recA.id, recB.id, recC.id]
    ∧ ([recA.id, recB.id, recC.id] : List String).Nodup :=
  ⟨by decide,
   c2_no_duplicates_amended [] [recA, recB, recC] false true none
    (some ⟨none, some [(colKey, ⟨none, some [recA.id, recC.id]⟩)]⟩) recB
    colKey [recA, recB, recC] Trigger.addToColumn
    (by intro l hl; rw [← Option.some_inj.mp hl]; decide) (by decide)
    [recA.id, recB.id, recC.id] (by decide)⟩

theorem idIndexOf_eq_none_of_not_mem_ids {l : List DataRecord} {x : String}
    (h : x ∉ l.map (fun r => r.id)) : idIndexOf l x = none := by
  rw [idIndexOf_eq_none_iff]
  intro r hr hrx
  exact h (List.mem_map.mpr ⟨r, hr, hrx⟩)

theorem idIndexOf_isSome_of_mem_ids {l : List DataRecord} {x : String}
    (h : x ∈ l.map (fun r => r.id)) : (idIndexOf l x).isSome = true := by
  cases hc : idIndexOf l x with
  | none =>
    obtain ⟨r, hr, hrx⟩ := List.mem_map.mp h
    exact absurd hrx ((idIndexOf_eq_none_iff _ _).mp hc r hr)
  | some i => rfl

theorem idIndexOf_lt_length {l : List DataRecord} {x : String} {i : Nat}
    (h : idIndexOf l x = some i) : i < l.length := by
  induction l generalizing i with
  | nil => simp [idIndexOf] at h
  | cons r rest ih =>
    unfold idIndexOf at h
    by_cases hr : r.id = x
    · simp [hr] at h
      simp only [List.length_cons]
      omega
    · simp only [beq_eq_false_iff_ne.mpr hr, Bool.false_eq_true, if_false,
        Option.map_eq_some'] at h
      obtain ⟨j, hj, hji⟩ := h
      have := ih hj
      simp only [List.length_cons]
      omega

theorem mem_ids_eraseIdx_of_ne {l : List DataRecord} {id x : String} {i : Nat}
    (h : idIndexOf l id = some i) (hx : x ∈ l.map (fun r => r.id))
    (hne : x ≠ id) : x ∈ (l.eraseIdx i).map (fun r => r.id) := by
  induction l generalizing i with
  | nil => simp [idIndexOf] at h
  | cons r rest ih =>
    by_cases hr : r.id = id
    · have h0 : i = 0 := by
        unfold idIndexOf at h
        simp [hr] at h
        exact h.symm
      subst h0
      rw [show (r :: rest).eraseIdx 0 = rest from rfl]
      rcases List.mem_map.mp hx with ⟨q, hq, hqx⟩
      rcases List.mem_cons.mp hq with hq0 | hq0
      · exact absurd (by rw [← hqx, hq0, hr]) hne
      · exact List.mem_map.mpr ⟨q, hq0, hqx⟩
    · have hstep : ∃ j, idIndexOf rest id = some j ∧ i = j + 1 := by
        unfold idIndexOf at h
        simp only [beq_eq_false_iff_ne.mpr hr, Bool.false_eq_true, if_false,
          Option.map_eq_some'] at h
        obtain ⟨j, hj, hji⟩ := h
        exact ⟨j, hj, hji.symm⟩
      obtain ⟨j, hj, rfl⟩ := hstep
      rw [show (r :: rest).eraseIdx (j + 1) = r :: rest.eraseIdx j from rfl]
      rcases List.mem_map.mp hx with ⟨q, hq, hqx⟩
      rcases List.mem_cons.mp hq with hq0 | hq0
      · rw [List.map_cons]
        exact List.mem_cons.mpr (Or.inl (by rw [← hqx, hq0]))
      · rw [List.map_cons]
        exact List.mem_cons.mpr
          (Or.inr (ih hj (List.mem_map.mpr ⟨q, hq0, hqx⟩)))

theorem ids_spliceInsert (l : List DataRecord) (pos : Nat) (r : DataRecord) :
    (spliceInsert l pos r).map (fun x => x.id)
      = (l.map (fun x => x.id)).take pos
        ++ r.id :: (l.map (fun x => x.id)).drop pos := by
  unfold spliceInsert
  rw [List.map_append, List.map_cons, List.map_take, List.map_drop]

theorem mem_ids_spliceInsert_of_mem {l : List DataRecord} {pos : Nat}
    {r : DataRecord} {x : String} (h : x ∈ l.map (fun y => y.id)) :
    x ∈ (spliceInsert l pos r).map (fun y => y.id) := by
  rw [ids_spliceInsert]
  conv at h => rw [← List.take_append_drop pos (l.map (fun y => y.id))]
  rcases List.mem_append.mp h with h1 | h1
  · exact List.mem_append.mpr (Or.inl h1)
  · exact List.mem_append.mpr (Or.inr (List.mem_cons.mpr (Or.inr h1)))

theorem ids_eraseIdx (l : List DataRecord) (i : Nat) :
    (l.eraseIdx i).map (fun r => r.id)
      = (l.map (fun r => r.id)).eraseIdx i := by
  induction l generalizing i with
  | nil => simp
  | cons r rest ih =>
    cases i with
    | zero => rfl
    | succ j =>
      rw [show (r :: rest).eraseIdx (j + 1) = r :: rest.eraseIdx j from rfl]
      rw [List.map_cons, List.map_cons,
        show (r.id :: rest.map (fun x => x.id)).eraseIdx (j + 1)
          = r.id :: (rest.map (fun x => x.id)).eraseIdx j from rfl, ih]

theorem eraseIdx_append_middle (t d : List String) (x : String) :
    (t ++ x :: d).eraseIdx t.length = t ++ d := by
  induction t with
  | nil => rfl
  | cons y t ih =>
    rw [List.cons_append, List.length_cons,
      show (y :: (t ++ x :: d)).eraseIdx (t.length + 1)
        = y :: (t ++ x :: d).eraseIdx t.length from rfl, ih, List.cons_append]

theorem idIndexOf_eq_of_ids_split {l : List DataRecord} {x : String}
    {t d : List String} (h : l.map (fun r => r.id) = t ++ x :: d)
    (hnot : x ∉ t) : idIndexOf l x = some t.length := by
  induction l generalizing t with
  | nil => simp at h
  | cons r rest ih =>
    cases t with
    | nil =>
      simp only [List.map_cons, List.nil_append, List.cons.injEq] at h
      unfold idIndexOf
      simp [h.1]
    | cons y t =>
      simp only [List.map_cons, List.cons_append, List.cons.injEq] at h
      have hne : r.id ≠ x := by
        rw [h.1]
        intro hxy
        exact hnot (by rw [← hxy]; exact List.mem_cons_self y t)
      unfold idIndexOf
      rw [beq_eq_false_iff_ne.mpr hne]
      simp only [Bool.false_eq_true, if_false]
      rw [ih h.2 (fun hm => hnot (List.mem_cons.mpr (Or.inr hm)))]
      rfl

theorem ids_filterMap_getRecord_of_isSome (frame : List DataRecord)
    (ids : List String) (h : ∀ x ∈ ids, (getRecord frame x).isSome = true) :
    ((ids.filterMap (getRecord frame)).map (fun r => r.id)) = ids := by
  induction ids with
  | nil => rfl
  | cons i rest ih =>
    cases hres : getRecord frame i with
    | none =>
      have := h i (List.mem_cons_self i rest)
      rw [hres] at this
      exact absurd this (by simp)
    | some r =>
      rw [List.filterMap_cons_some hres, List.map_cons, getRecord_id hres,
        ih (fun x hx => h x (List.mem_cons.mpr (Or.inr hx)))]

theorem reconcileConfigRecords_shape (hasSort hasFilter : Bool)
    (trigger : Trigger) (record : DataRecord)
    (uiRecords configRecords : List DataRecord) :
    ∃ spliced,
      ((idIndexOf configRecords record.id = none ∧ spliced = configRecords)
       ∨ ∃ i, idIndexOf configRecords record.id = some i
           ∧ ((trigger = Trigger.removeFromColumn ∨ hasSort = false)
                ∧ spliced = configRecords.eraseIdx i
              ∨ ¬(trigger = Trigger.removeFromColumn ∨ hasSort = false)
                ∧ spliced = configRecords))
      ∧ reconcileConfigRecords hasSort hasFilter trigger record uiRecords
          configRecords
        = (if trigger = Trigger.addToColumn then
             if hasSort then
               if (idIndexOf configRecords record.id).isSome then spliced
               else spliced ++ [record]
             else if hasFilter then
               spliceInsert spliced
                 (filterInsertPosition spliced uiRecords record) record
             else spliced
           else spliced) := by
  cases hidx : idIndexOf configRecords record.id with
  | none =>
    refine ⟨configRecords, Or.inl ⟨rfl, rfl⟩, ?_⟩
    unfold reconcileConfigRecords
    simp only [hidx, Option.isSome_none, Bool.false_eq_true, false_and,
      if_false]
  | some i =>
    by_cases hcond : trigger = Trigger.removeFromColumn ∨ hasSort = false
    · refine ⟨configRecords.eraseIdx i,
        Or.inr ⟨i, rfl, Or.inl ⟨hcond, rfl⟩⟩, ?_⟩
      unfold reconcileConfigRecords
      simp only [hidx, Option.isSome_some]
      rw [if_pos (show True
        ∧ (trigger = Trigger.removeFromColumn ∨ hasSort = false) from
        ⟨trivial, hcond⟩)]
    · refine ⟨configRecords,
        Or.inr ⟨i, rfl, Or.inr ⟨hcond, rfl⟩⟩, ?_⟩
      unfold reconcileConfigRecords
      simp only [hidx, Option.isSome_some]
      rw [if_neg (show ¬(True
        ∧ (trigger = Trigger.removeFromColumn ∨ hasSort = false)) from
        fun hc => hcond hc.2)]

theorem mem_ids_reconcile_of_mem (hasSort hasFilter : Bool) (trigger : Trigger)
    (record : DataRecord) (uiRecords configRecords : List DataRecord)
    {x : String} (hx : x ∈ configRecords.map (fun r => r.id))
    (hne : x ≠ record.id) :
    x ∈ (reconcileConfigRecords hasSort hasFilter trigger record uiRecords
        configRecords).map (fun r => r.id) := by
  obtain ⟨spliced, hsp, heq⟩ := reconcileConfigRecords_shape hasSort hasFilter
    trigger record uiRecords configRecords
  have hxsp : x ∈ spliced.map (fun r => r.id) := by
    rcases hsp with ⟨_, rfl⟩ | ⟨i, hi, hcase⟩
    · exact hx
    · rcases hcase with ⟨_, rfl⟩ | ⟨_, rfl⟩
      · exact mem_ids_eraseIdx_of_ne hi hx hne
      · exact hx
  rw [heq]
  split
  · split
    · split
      · exact hxsp
      · rw [List.map_append]
        exact List.mem_append.mpr (Or.inl hxsp)
    · split
      · exact mem_ids_spliceInsert_of_mem hxsp
      · exact hxsp
  · exact hxsp

theorem mergedRecords_eq_self (record : DataRecord)
    (uiRecords reconciled : List DataRecord)
    (h : ∀ r ∈ uiRecords, r.id ≠ record.id →
      r.id ∈ reconciled.map (fun y => y.id)) :
    mergedRecords record uiRecords reconciled = reconciled := by
  unfold mergedRecords
  have hfil : uiRecords.filter (fun r1 =>
      r1.id != record.id && !(reconciled.any (fun r2 => r2.id == r1.id)))
      = [] := by
    rw [List.filter_eq_nil_iff]
    intro r hr
    by_cases hid : r.id = record.id
    · simp [hid]
    · have hmem := h r hr hid
      obtain ⟨q, hq, hqx⟩ := List.mem_map.mp hmem
      have hany : (reconciled.any (fun r2 => r2.id == r.id)) = true :=
        List.any_eq_true.mpr ⟨q, hq, by simp [hqx]⟩
      simp [hany]
  rw [hfil, List.append_nil]

theorem idIndexOf_congr {l l2 : List DataRecord}
    (h : l.map (fun r => r.id) = l2.map (fun r => r.id)) :
    ∀ x, idIndexOf l x = idIndexOf l2 x := by
  induction l generalizing l2 with
  | nil =>
    cases l2 with
    | nil => intro x; rfl
    | cons q rest2 => simp at h
  | cons r rest ih =>
    cases l2 with
    | nil => simp at h
    | cons q rest2 =>
      simp only [List.map_cons, List.cons.injEq] at h
      intro x
      unfold idIndexOf
      rw [h.1, ih h.2 x]

theorem filterInsertPosition_congr {l l2 : List DataRecord}
    (uiRecords : List DataRecord) (record : DataRecord)
    (h : l.map (fun r => r.id) = l2.map (fun r => r.id)) :
    filterInsertPosition l uiRecords record
      = filterInsertPosition l2 uiRecords record := by
  have hlen : l.length = l2.length := by
    rw [← List.length_map l (fun r => r.id), h, List.length_map]
  unfold filterInsertPosition jsFindIndex
  simp only [idIndexOf_congr h, hlen]

theorem filterInsertPosition_le_length
    (configRecords uiRecords : List DataRecord) (record : DataRecord) :
    filterInsertPosition configRecords uiRecords record
      ≤ configRecords.length := by
  unfold filterInsertPosition
  cases hb : uiPrevNeighbor uiRecords record with
  | some b =>
    cases hib : idIndexOf configRecords b.id with
    | some i =>
      have hlt := idIndexOf_lt_length hib
      have h1 : (((i : Int) + 1) == (-1 : Int)) = false :=
        beq_eq_false_iff_ne.mpr (by omega)
      simp only [hb, hib, h1, Bool.false_eq_true, if_false]
      omega
    | none =>
      simp only [hb, hib]
      cases ha : uiNextNeighbor uiRecords record with
      | none => simp [ha]
      | some a =>
        cases hja : idIndexOf configRecords a.id with
        | none => simp [ha, jsFindIndex, hja]
        | some j =>
          have hlt := idIndexOf_lt_length hja
          have hm1 : (((-1 : Int)) == -1) = true := by decide
          have h1 : (((j : Nat) : Int) == (-1 : Int)) = false :=
            beq_eq_false_iff_ne.mpr (by omega)
          simp only [ha, jsFindIndex, hja, hm1, if_true, h1,
            Bool.false_eq_true, if_false]
          omega
  | none =>
    simp only [hb]
    cases ha : uiNextNeighbor uiRecords record with
    | none => simp [ha]
    | some a =>
      cases hja : idIndexOf configRecords a.id with
      | none => simp [ha, jsFindIndex, hja]
      | some j =>
        have hlt := idIndexOf_lt_length hja
        have hm1 : (((-1 : Int)) == -1) = true := by decide
        have h1 : (((j : Nat) : Int) == (-1 : Int)) = false :=
          beq_eq_false_iff_ne.mpr (by omega)
        simp only [ha, jsFindIndex, hja, hm1, if_true, h1,
          Bool.false_eq_true, if_false]
        omega

theorem mem_ids_of_idIndexOf_some {l : List DataRecord} {x : String} {i : Nat}
    (h : idIndexOf l x = some i) : x ∈ l.map (fun r => r.id) := by
  by_contra hmem
  rw [idIndexOf_eq_none_of_not_mem_ids hmem] at h
  exact Option.noConfusion h

theorem reconcile_ids_stable (hasSort hasFilter : Bool) (trigger : Trigger)
    (record : DataRecord) (uiRecords C C2 : List DataRecord)
    (hnd : (C.map (fun r => r.id)).Nodup)
    (hids : C2.map (fun r => r.id)
      = (reconcileConfigRecords hasSort hasFilter trigger record uiRecords
          C).map (fun r => r.id)) :
    (reconcileConfigRecords hasSort hasFilter trigger record uiRecords
        C2).map (fun r => r.id)
      = (reconcileConfigRecords hasSort hasFilter trigger record uiRecords
          C).map (fun r => r.id) := by
  obtain ⟨S1, hS1, heq1⟩ := reconcileConfigRecords_shape hasSort hasFilter
    trigger record uiRecords C
  obtain ⟨S2, hS2, heq2⟩ := reconcileConfigRecords_shape hasSort hasFilter
    trigger record uiRecords C2
  by_cases ht : trigger = Trigger.addToColumn
  · by_cases hs : hasSort = true
    · have hcondF : ¬(trigger = Trigger.removeFromColumn ∨ hasSort = false) := by
        rintro (hc | hc)
        · rw [ht] at hc
          exact Trigger.noConfusion hc
        · rw [hs] at hc
          exact Bool.noConfusion hc
      have hS1C : S1 = C := by
        rcases hS1 with ⟨_, h0⟩ | ⟨i, hi, hcase⟩
        · exact h0
        · rcases hcase with ⟨hc, _⟩ | ⟨_, h0⟩
          · exact absurd hc hcondF
          · exact h0
      have hS2C : S2 = C2 := by
        rcases hS2 with ⟨_, h0⟩ | ⟨i, hi, hcase⟩
        · exact h0
        · rcases hcase with ⟨hc, _⟩ | ⟨_, h0⟩
          · exact absurd hc hcondF
          · exact h0
      have hmem2 : record.id ∈ C2.map (fun r => r.id) := by
        rw [hids, heq1, if_pos ht, if_pos hs, hS1C]
        cases hidx1 : idIndexOf C record.id with
        | some i =>
          rw [if_pos (show (Option.some i).isSome = true from rfl)]
          exact mem_ids_of_idIndexOf_some hidx1
        | none =>
          rw [if_neg (show ¬((Option.none : Option Nat).isSome = true) from
            by simp), List.map_append]
          exact List.mem_append.mpr (Or.inr (by simp))
      have hrec2 : reconcileConfigRecords hasSort hasFilter trigger record
          uiRecords C2 = C2 := by
        rw [heq2, if_pos ht, if_pos hs, hS2C,
          if_pos (idIndexOf_isSome_of_mem_ids hmem2)]
      rw [hrec2, hids]
    · have hsF : hasSort = false := by
        revert hs
        cases hasSort <;> simp
      have hcondT : trigger = Trigger.removeFromColumn ∨ hasSort = false :=
        Or.inr hsF
      have hS1nR : record.id ∉ S1.map (fun r => r.id) := by
        rcases hS1 with ⟨hnone, h0⟩ | ⟨i, hi, hcase⟩
        · rw [h0]
          exact not_mem_ids_of_idIndexOf_none hnone
        · rcases hcase with ⟨_, h0⟩ | ⟨hc, _⟩
          · rw [h0]
            exact not_mem_ids_eraseIdx_of_idIndexOf hnd hi
          · exact absurd hcondT hc
      by_cases hf : hasFilter = true
      · have hrec1 : reconcileConfigRecords hasSort hasFilter trigger record
            uiRecords C
            = spliceInsert S1 (filterInsertPosition S1 uiRecords record)
                record := by
          rw [heq1, if_pos ht, hsF, hf]
          simp only [Bool.false_eq_true, if_false, eq_self_iff_true, if_true]
        have hplen : filterInsertPosition S1 uiRecords record ≤ S1.length :=
          filterInsertPosition_le_length S1 uiRecords record
        have hσ : C2.map (fun r => r.id)
            = ((S1.map (fun r => r.id)).take
                (filterInsertPosition S1 uiRecords record))
              ++ record.id
              :: ((S1.map (fun r => r.id)).drop
                (filterInsertPosition S1 uiRecords record)) := by
          rw [hids, hrec1, ids_spliceInsert]
        have htklen : (((S1.map (fun r => r.id)).take
            (filterInsertPosition S1 uiRecords record))).length
            = filterInsertPosition S1 uiRecords record := by
          rw [List.length_take]
          exact min_eq_left (by rw [List.length_map]; exact hplen)
        have hidx2 : idIndexOf C2 record.id
            = some (filterInsertPosition S1 uiRecords record) := by
          have := idIndexOf_eq_of_ids_split hσ
            (fun hm => hS1nR (List.take_subset _ _ hm))
          rwa [htklen] at this
        have hS2e : S2 = C2.eraseIdx (filterInsertPosition S1 uiRecords
            record) := by
          rcases hS2 with ⟨hnone, _⟩ | ⟨j, hj, hcase⟩
          · rw [hnone] at hidx2
            exact Option.noConfusion hidx2
          · rcases hcase with ⟨_, h0⟩ | ⟨hc, _⟩
            · rw [h0,
                show j = filterInsertPosition S1 uiRecords record from
                  Option.some_inj.mp (hj.symm.trans hidx2)]
            · exact absurd hcondT hc
        have hS2ids : S2.map (fun r => r.id) = S1.map (fun r => r.id) := by
          rw [hS2e, ids_eraseIdx, hσ]
          have hmid := eraseIdx_append_middle
            ((S1.map (fun r => r.id)).take
              (filterInsertPosition S1 uiRecords record))
            ((S1.map (fun r => r.id)).drop
              (filterInsertPosition S1 uiRecords record))
            record.id
          rw [htklen] at hmid
          rw [hmid, List.take_append_drop]
        have hrec2 : reconcileConfigRecords hasSort hasFilter trigger record
            uiRecords C2
            = spliceInsert S2 (filterInsertPosition S2 uiRecords record)
                record := by
          rw [heq2, if_pos ht, hsF, hf]
          simp only [Bool.false_eq_true, if_false, eq_self_iff_true, if_true]
        rw [hrec2, hrec1, ids_spliceInsert, ids_spliceInsert,
          filterInsertPosition_congr uiRecords record hS2ids, hS2ids]
      · have hfF : hasFilter = false := by
          revert hf
          cases hasFilter <;> simp
        have hrec1 : reconcileConfigRecords hasSort hasFilter trigger record
            uiRecords C = S1 := by
          rw [heq1, if_pos ht, hsF, hfF]
          simp only [Bool.false_eq_true, if_false]
        have hidx2 : idIndexOf C2 record.id = none :=
          idIndexOf_eq_none_of_not_mem_ids
            (by rw [hids, hrec1]; exact hS1nR)
        have hS2C : S2 = C2 := by
          rcases hS2 with ⟨_, h0⟩ | ⟨j, hj, _⟩
          · exact h0
          · rw [hj] at hidx2
            exact Option.noConfusion hidx2
        have hrec2 : reconcileConfigRecords hasSort hasFilter trigger record
            uiRecords C2 = C2 := by
          rw [heq2, if_pos ht, hsF, hfF, hS2C]
          simp only [Bool.false_eq_true, if_false]
        rw [hrec2, hids, hrec1]
  · have hrec1S : reconcileConfigRecords hasSort hasFilter trigger record
        uiRecords C = S1 := by
      rw [heq1, if_neg ht]
    have hrec2S : reconcileConfigRecords hasSort hasFilter trigger record
        uiRecords C2 = S2 := by
      rw [heq2, if_neg ht]
    by_cases hcond : trigger = Trigger.removeFromColumn ∨ hasSort = false
    · have hS1nR : record.id ∉ S1.map (fun r => r.id) := by
        rcases hS1 with ⟨hnone, h0⟩ | ⟨i, hi, hcase⟩
        · rw [h0]
          exact not_mem_ids_of_idIndexOf_none hnone
        · rcases hcase with ⟨_, h0⟩ | ⟨hc, _⟩
          · rw [h0]
            exact not_mem_ids_eraseIdx_of_idIndexOf hnd hi
          · exact absurd hcond hc
      have hidx2 : idIndexOf C2 record.id = none :=
        idIndexOf_eq_none_of_not_mem_ids
          (by rw [hids, hrec1S]; exact hS1nR)
      have hS2C : S2 = C2 := by
        rcases hS2 with ⟨_, h0⟩ | ⟨j, hj, _⟩
        · exact h0
        · rw [hj] at hidx2
          exact Option.noConfusion hidx2
      rw [hrec2S, hS2C, hids]
    · have hS2C : S2 = C2 := by
        rcases hS2 with ⟨_, h0⟩ | ⟨j, hj, hcase⟩
        · exact h0
        · rcases hcase with ⟨hc, _⟩ | ⟨_, h0⟩
          · exact absurd hc hcond
          · exact h0
      rw [hrec2S, hS2C, hids]

/-- C6 counterexample: with filter active and an empty persisted list, adding
record B with UI order A, B persists B, A on the first run (B is appended to
the empty config list, then A is appended as drift), but A, B on the second
run (B is re-anchored after its now-resolved previous neighbor A): the handler
is not idempotent. -/
theorem c6_idempotence_counterexample :
    columnRecordIds (some (boardMutation [] [recA, recB] false true none
        (some ⟨none, some [(colKey, ⟨none, some []⟩)]⟩) recB colKey
        [recA, recB] Trigger.addToColumn).newConfig) colKey
      = some [recB.id, recA.id]
    ∧ columnRecordIds (some (boardMutation [] [recA, recB] false true none
        (some (boardMutation [] [recA, recB] false true none
          (some ⟨none, some [(colKey, ⟨none, some []⟩)]⟩) recB colKey
          [recA, recB] Trigger.addToColumn).newConfig) recB colKey
        [recA, recB] Trigger.addToColumn).newConfig) colKey
      = some [recA.id, recB.id] := by
  exact ⟨by decide, by decide⟩

set_option maxHeartbeats 1600000 in
/-- C6 (amended): running the record-update handler twice with the same
mutation event, the second run reading the config produced by the first,
yields the same persisted id list for the column both times, provided that
whenever sort or filter is active, the column's persisted list exists with no
duplicate id, the mutated record's id resolves in the frame, and every
UI-supplied record other than the mutated one resolves to an entry of the
persisted list. -/
theorem c6_idempotence_amended (fields : List String)
    (frame : List DataRecord) (hasSort hasFilter : Bool)
    (groupByField : Option String) (config : Option BoardConfig)
    (record0 : DataRecord) (column : String) (uiRecords : List DataRecord)
    (trigger : Trigger)
    (hcond : (hasSort || hasFilter) = true →
      ∃ l, columnRecordIds config column = some l
        ∧ l.Nodup
        ∧ (getRecord frame record0.id).isSome = true
        ∧ ∀ r ∈ uiRecords, r.id ≠ record0.id →
            r.id ∈ (l.filterMap (getRecord frame)).map (fun x => x.id)) :
    columnRecordIds (some (boardMutation fields frame hasSort hasFilter
        groupByField
        (some (boardMutation fields frame hasSort hasFilter groupByField
          config record0 column uiRecords trigger).newConfig)
        record0 column uiRecords trigger).newConfig) column
      = columnRecordIds (some (boardMutation fields frame hasSort hasFilter
          groupByField config record0 column uiRecords trigger).newConfig)
          column := by
  have hR : (stampGroupField groupByField trigger column record0).id
      = record0.id := stampGroupField_id groupByField trigger column record0
  have hccr1 : columnRecordIds (some (boardMutation fields frame hasSort
      hasFilter groupByField config record0 column uiRecords
      trigger).newConfig) column
      = some ((finalColumnRecords frame hasSort hasFilter config
          (stampGroupField groupByField trigger column record0) column
          uiRecords trigger).map (fun r => r.id)) :=
    columnRecordIds_updatedConfig_self config column _
  have hccr2 : columnRecordIds (some (boardMutation fields frame hasSort
      hasFilter groupByField
      (some (boardMutation fields frame hasSort hasFilter groupByField
        config record0 column uiRecords trigger).newConfig)
      record0 column uiRecords trigger).newConfig) column
      = some ((finalColumnRecords frame hasSort hasFilter
          (some (boardMutation fields frame hasSort hasFilter groupByField
            config record0 column uiRecords trigger).newConfig)
          (stampGroupField groupByField trigger column record0) column
          uiRecords trigger).map (fun r => r.id)) :=
    columnRecordIds_updatedConfig_self _ column _
  rw [hccr1, hccr2]
  by_cases hflags : (hasSort || hasFilter) = true
  · obtain ⟨l, hl, hnd, hrec0, hui⟩ := hcond hflags
    set R := stampGroupField groupByField trigger column record0 with hRdef
    set C := l.filterMap (getRecord frame) with hCdef
    set rec1 := reconcileConfigRecords hasSort hasFilter trigger R uiRecords C
      with hrec1def
    set C2 := (rec1.map (fun r => r.id)).filterMap (getRecord frame)
      with hC2def
    set rec2 := reconcileConfigRecords hasSort hasFilter trigger R uiRecords
      C2 with hrec2def
    have hresolve1 : resolveConfigRecords frame config column = some C := by
      rw [hCdef]
      unfold resolveConfigRecords
      rw [hl]
      rfl
    have hfin1 : finalColumnRecords frame hasSort hasFilter config R column
        uiRecords trigger = mergedRecords R uiRecords rec1 := by
      unfold finalColumnRecords
      rw [hflags, if_pos rfl, hresolve1, hrec1def]
    have hCnd : (C.map (fun r => r.id)).Nodup := by
      rw [hCdef]
      exact hnd.sublist (ids_filterMap_getRecord_sublist frame l)
    have hP : ∀ r ∈ uiRecords, r.id ≠ R.id →
        r.id ∈ rec1.map (fun y => y.id) := by
      intro r hr hne
      rw [hrec1def]
      refine mem_ids_reconcile_of_mem hasSort hasFilter trigger R uiRecords C
        ?_ hne
      rw [hCdef]
      exact hui r hr (by rw [← hR]; exact hne)
    have hmerged1 : mergedRecords R uiRecords rec1 = rec1 :=
      mergedRecords_eq_self R uiRecords rec1 hP
    have hres_all : ∀ x ∈ rec1.map (fun r => r.id),
        (getRecord frame x).isSome = true := by
      intro x hx
      obtain ⟨r, hr, hrid⟩ := List.mem_map.mp hx
      rw [hrec1def] at hr
      rcases mem_reconcileConfigRecords hr with h1 | h1
      · rw [hCdef] at h1
        have hsome := getRecord_of_mem_resolve h1
        rw [hrid] at hsome
        rw [hsome]
        rfl
      · rw [← hrid, h1, hR]
        exact hrec0
    have hl2 : columnRecordIds (some (boardMutation fields frame hasSort
        hasFilter groupByField config record0 column uiRecords
        trigger).newConfig) column
        = some (rec1.map (fun r => r.id)) := by
      rw [hccr1, hfin1, hmerged1]
    have hresolve2 : resolveConfigRecords frame
        (some (boardMutation fields frame hasSort hasFilter groupByField
          config record0 column uiRecords trigger).newConfig) column
        = some C2 := by
      rw [hC2def]
      unfold resolveConfigRecords
      rw [hl2]
      rfl
    have hfin2 : finalColumnRecords frame hasSort hasFilter
        (some (boardMutation fields frame hasSort hasFilter groupByField
          config record0 column uiRecords trigger).newConfig)
        R column uiRecords trigger = mergedRecords R uiRecords rec2 := by
      unfold finalColumnRecords
      rw [hflags, if_pos rfl, hresolve2, hrec2def]
    have hC2ids : C2.map (fun r => r.id) = rec1.map (fun r => r.id) := by
      rw [hC2def]
      exact ids_filterMap_getRecord_of_isSome frame _ hres_all
    have hstable : rec2.map (fun r => r.id) = rec1.map (fun r => r.id) := by
      rw [hrec2def, hrec1def]
      rw [hrec1def] at hC2ids
      exact reconcile_ids_stable hasSort hasFilter trigger R uiRecords C C2
        hCnd hC2ids
    have hP2 : ∀ r ∈ uiRecords, r.id ≠ R.id →
        r.id ∈ rec2.map (fun y => y.id) := by
      intro r hr hne
      have := hP r hr hne
      rw [show rec2.map (fun y => y.id) = rec1.map (fun y => y.id) from
        hstable]
      exact this
    have hmerged2 : mergedRecords R uiRecords rec2 = rec2 :=
      mergedRecords_eq_self R uiRecords rec2 hP2
    rw [hfin1, hfin2, hmerged1, hmerged2, hstable]
  · have hff : (hasSort || hasFilter) = false := by
      revert hflags
      cases hasSort <;> cases hasFilter <;> simp
    have h1 : ∀ cfg : Option BoardConfig,
        finalColumnRecords frame hasSort hasFilter cfg
          (stampGroupField groupByField trigger column record0) column
          uiRecords trigger = uiRecords := by
      intro cfg
      unfold finalColumnRecords
      rw [hff]
      simp
    rw [h1, h1]

/-- C6 amended witness: with filter active, a persisted list A, B resolving in
the frame and a UI list drawn from it, running the add of record B twice
yields the persisted list B, A both times. -/
theorem c6_idempotence_amended_witness :
    columnRecordIds (some (boardMutation [] [recA, recB] false true none
        (some (boardMutation [] [recA, recB] false true none
          (some ⟨none, some [(colKey, ⟨none, some [recA.id, recB.id]⟩)]⟩)
          recB colKey [recB, recA] Trigger.addToColumn).newConfig)
        recB colKey [recB, recA] Trigger.addToColumn).newConfig) colKey
      = columnRecordIds (some (boardMutation [] [recA, recB] false true none
          (some ⟨none, some [(colKey, ⟨none, some [recA.id, recB.id]⟩)]⟩)
          recB colKey [recB, recA] Trigger.addToColumn).newConfig) colKey :=
  c6_idempotence_amended [] [recA, recB] false true none
    (some ⟨none, some [(colKey, ⟨none, some [recA.id, recB.id]⟩)]⟩) recB
    colKey [recB, recA] Trigger.addToColumn
    (fun _ => ⟨[recA.id, recB.id], by decide, by decide, by decide,
      by decide⟩)
